import Mathlib

/-!
Verification of the ultrametric loss implementation in
funlib.learn.tensorflow (losses/um_loss.py).

The Python source is embedded shallowly over exact rationals.  The C++
kernel (losses.impl: euclidean_mst and um_loss) and py_func_gradient are
not part of the repository snapshot, so they are modelled from the
specification; every such definition is marked in its doc comment.

Square roots of rationals are in general irrational, so the pipeline is
parametrised over a function sq : Rat -> Rat standing for the square
root used by the floating-point code; theorems that depend on sq being a
genuine square root carry that as an explicit hypothesis on the values
it is applied to.
-/

/-- Numpy/tensorflow element type tags that matter to the code under
verification: float32, float64 and int64. -/
inductive DType
  | float32
  | float64
  | int64
deriving DecidableEq

/-- A flattened embedding array: one row per point, carrying its numpy
dtype tag.  Values are carried exactly as rationals. -/
structure EmbArr where
  dtype : DType
  rows : List (List ℚ)
deriving DecidableEq

/-- The MST array returned by the euclidean_mst kernel: rows (u, v, d)
with u, v node indices and d the edge length, plus a dtype tag. -/
structure MstArr where
  dtype : DType
  edges : List (ℕ × ℕ × ℚ)
deriving DecidableEq

/-- Failure kinds of the computation: InvalidInput per the spec error
taxonomy, and valueError for numpy's ValueError (raised for instance by
np.min on an empty array). -/
inductive UMErr
  | invalidInput
  | valueError
deriving DecidableEq

/-- Equality of Except values is decidable when both component types
have decidable equality; used to evaluate the embedding on concrete
inputs. -/
instance {ε α : Type} [DecidableEq ε] [DecidableEq α] :
    DecidableEq (Except ε α) := fun x y =>
  match x, y with
  | Except.ok a, Except.ok b =>
    if h : a = b then isTrue (by rw [h])
    else isFalse (by intro hc; cases hc; exact h rfl)
  | Except.error a, Except.error b =>
    if h : a = b then isTrue (by rw [h])
    else isFalse (by intro hc; cases hc; exact h rfl)
  | Except.ok _, Except.error _ => isFalse (by intro hc; cases hc)
  | Except.error _, Except.ok _ => isFalse (by intro hc; cases hc)

/-- numpy ndarray.astype: converts the element type.  Conversion to a
wider floating type is exact on the values, so only the tag changes in
this exact-rational model. -/
def astype (dt : DType) (a : EmbArr) : EmbArr :=
  { dtype := dt, rows := a.rows }

/-- Row i of the point array (empty vector out of range, for totality). -/
def point (ps : List (List ℚ)) (i : ℕ) : List ℚ :=
  ps.getD i []

/-- Squared Euclidean distance between two embedding vectors. -/
def sqDist (p q : List ℚ) : ℚ :=
  (List.zipWith (fun a b => (a - b) * (a - b)) p q).sum

/-- Strict lexicographic comparison of candidate MST edges by (squared
distance, source index, target index); the fixed tie-breaking order the
spec requires for bit-reproducibility. -/
def edgeKeyLt (ps : List (List ℚ)) (e f : ℕ × ℕ) : Bool :=
  let de := sqDist (point ps e.1) (point ps e.2)
  let df := sqDist (point ps f.1) (point ps f.2)
  decide (de < df) ||
    (decide (de = df) &&
      (decide (e.1 < f.1) || (decide (e.1 = f.1) && decide (e.2 < f.2))))

/-- Minimal candidate edge under edgeKeyLt, none for an empty list. -/
def pickMin (ps : List (List ℚ)) (cands : List (ℕ × ℕ)) : Option (ℕ × ℕ) :=
  cands.foldl
    (fun best c =>
      match best with
      | none => some c
      | some b => if edgeKeyLt ps c b then some c else some b)
    none

/-- Modelled from the spec: one step of Prim's algorithm over squared
Euclidean distances (monotonically equivalent to comparing the lengths
themselves), adding the closest outside point to the tree.  Fuel is the
number of edges still to produce. -/
def primAux (ps : List (List ℚ)) : ℕ → List ℕ → List ℕ → List (ℕ × ℕ × ℚ)
  | 0, _, _ => []
  | Nat.succ fuel, tree, rest =>
    match pickMin ps (tree.flatMap (fun i => rest.map (fun j => (i, j)))) with
    | none => []
    | some e =>
      (e.1, e.2, sqDist (point ps e.1) (point ps e.2)) ::
        primAux ps fuel (e.2 :: tree) (rest.erase e.2)

/-- Non-strict ordering of produced MST edges by (squared distance, u, v). -/
def edgeLe (e f : ℕ × ℕ × ℚ) : Bool :=
  decide (e.2.2 < f.2.2) ||
    (decide (e.2.2 = f.2.2) &&
      (decide (e.1 < f.1) || (decide (e.1 = f.1) && decide (e.2.1 ≤ f.2.1))))

/-- Insertion into an edgeLe-sorted list. -/
def insertSorted (x : ℕ × ℕ × ℚ) : List (ℕ × ℕ × ℚ) → List (ℕ × ℕ × ℚ)
  | [] => [x]
  | y :: ys => if edgeLe x y then x :: y :: ys else y :: insertSorted x ys

/-- Insertion sort of MST edges into non-decreasing distance order, as
the kernel returns them. -/
def sortEdges : List (ℕ × ℕ × ℚ) → List (ℕ × ℕ × ℚ)
  | [] => []
  | x :: xs => insertSorted x (sortEdges xs)

/-- Modelled from the spec: the euclidean MST kernel (losses.impl.emst,
not in the repository snapshot).  Given N points it returns the N-1
edges of a minimum spanning tree under Euclidean distance, sorted by
non-decreasing distance with deterministic lexicographic tie-breaking,
computed in double precision (output dtype float64); it fails with
InvalidInput when the point set is empty.  The third column holds the
edge length: comparisons are carried out exactly on squared lengths and
the stored value is sq applied to the squared length, where sq stands
for the square root. -/
def euclidean_mst (sq : ℚ → ℚ) (a : EmbArr) : Except UMErr MstArr :=
  if a.rows.length = 0 then
    Except.error UMErr.invalidInput
  else
    Except.ok
      { dtype := DType.float64
        edges :=
          (sortEdges
            (primAux a.rows (a.rows.length - 1) [0]
              ((List.range a.rows.length).filter (fun i => i != 0)))).map
            (fun e => (e.1, e.2.1, sq e.2.2)) }

/-- numpy's np.min on a 1-D array: ValueError on a zero-size array,
otherwise the least element. -/
def npMin (xs : List ℚ) : Except UMErr ℚ :=
  match xs with
  | [] => Except.error UMErr.valueError
  | x :: rest => Except.ok (rest.foldl min x)

/-- numpy's np.max on a 1-D array: ValueError on a zero-size array,
otherwise the greatest element. -/
def npMax (xs : List ℚ) : Except UMErr ℚ :=
  match xs with
  | [] => Except.error UMErr.valueError
  | x :: rest => Except.ok (rest.foldl max x)

/-- Result record of the um_loss kernel, in the order of the Python
tuple (loss, gradient, ratio_pos, ratio_neg, num_pairs_pos,
num_pairs_neg). -/
structure UMLossResult where
  loss : ℚ
  gradient : List ℚ
  ratio_pos : List ℚ
  ratio_neg : List ℚ
  num_pairs_pos : ℚ
  num_pairs_neg : ℚ
deriving DecidableEq

/-- Initial union-find state of the pair counter: one singleton cluster
per point. -/
def initialClusters (n : ℕ) : List (List ℕ) :=
  (List.range n).map (fun i => [i])

/-- The cluster currently containing point u (singleton fallback for
totality; never taken for well-formed states). -/
def findCl (cs : List (List ℕ)) (u : ℕ) : List ℕ :=
  (cs.find? (fun c => c.contains u)).getD [u]

/-- Modelled from the spec: one merge step of the ultrametric pair
counter.  For an edge (u, v) joining clusters A and B, the pairs whose
bottleneck is this edge are the |A|x|B| cross pairs; num_pos of them
share a label, the rest differ; B is then merged into A. -/
def mergeStep (gt : List ℤ) (cs : List (List ℕ)) (u v : ℕ) :
    ℕ × ℕ × List (List ℕ) :=
  let A := findCl cs u
  let B := findCl cs v
  if A = B then (0, 0, cs)
  else
    let npos := (A.map (fun i => B.countP (fun j => gt.getD j 0 == gt.getD i 0))).sum
    (npos, A.length * B.length - npos, (A ++ B) :: ((cs.erase A).erase B))

/-- Modelled from the spec: the pair counter's traversal of the MST
edges in the given (sorted) order, returning per-edge (num_pos,
num_neg). -/
def runEdges (gt : List ℤ) (cs : List (List ℕ)) :
    List (ℕ × ℕ × ℚ) → List (ℕ × ℕ)
  | [] => []
  | e :: rest =>
    let r := mergeStep gt cs e.1 e.2.1
    (r.1, r.2.1) :: runEdges gt r.2.2 rest

/-- Modelled from the spec: the full-mode quadruplet loss collapsed over
edges, L equal to the double sum of num_pos_i times num_neg_j times the
squared hinge of (d_j - d_i + alpha).  Each list element is (distance,
num_pos, num_neg). -/
def um_full_loss (L : List (ℚ × ℕ × ℕ)) (alpha : ℚ) : ℚ :=
  (L.map (fun a =>
    (L.map (fun b =>
      (a.2.1 : ℚ) * (b.2.2 : ℚ) *
        (max 0 (b.1 - a.1 + alpha) * max 0 (b.1 - a.1 + alpha)))).sum)).sum

/-- Modelled from the spec: the gradient of the full-mode loss with
respect to each edge distance; an edge accumulates a -2 hinge term for
its positive pairs and a +2 hinge term for its negative pairs. -/
def um_full_gradient (L : List (ℚ × ℕ × ℕ)) (alpha : ℚ) : List ℚ :=
  L.map (fun a =>
    (L.map (fun b =>
      (a.2.1 : ℚ) * (b.2.2 : ℚ) * (-2) * max 0 (b.1 - a.1 + alpha) +
        (b.2.1 : ℚ) * (a.2.2 : ℚ) * 2 * max 0 (a.1 - b.1 + alpha))).sum)

/-- Per-edge (num_pos, num_neg) bottleneck pair counts of the whole MST:
the pair counter run on singleton clusters over all edges in order. -/
def um_counts (mst : List (ℕ × ℕ × ℚ)) (gt_seg : List ℤ) : List (ℕ × ℕ) :=
  runEdges gt_seg (initialClusters (mst.length + 1)) mst

/-- Total number of positive pairs over the whole point set: the sum of
the per-edge positive counts. -/
def um_num_pos (mst : List (ℕ × ℕ × ℚ)) (gt_seg : List ℤ) : ℕ :=
  ((um_counts mst gt_seg).map (fun c => c.1)).sum

/-- Total number of negative pairs over the whole point set: the sum of
the per-edge negative counts. -/
def um_num_neg (mst : List (ℕ × ℕ × ℚ)) (gt_seg : List ℤ) : ℕ :=
  ((um_counts mst gt_seg).map (fun c => c.2)).sum

/-- Per-edge (distance, num_pos, num_neg) triples consumed by the
full-mode loss and gradient. -/
def um_L (mst : List (ℕ × ℕ × ℚ)) (gt_seg : List ℤ) : List (ℚ × ℕ × ℕ) :=
  List.zipWith (fun (e : ℕ × ℕ × ℚ) (c : ℕ × ℕ) => (e.2.2, c.1, c.2)) mst
    (um_counts mst gt_seg)

/-- A per-edge count normalized by a class total, 0 when the total is 0. -/
def um_ratio (total : ℕ) (c : ℕ) : ℚ :=
  if total = 0 then 0 else (c : ℚ) / (total : ℚ)

/-- Modelled from the spec: the um_loss kernel (losses.impl.um_loss, not
in the repository snapshot).  It validates its input eagerly (InvalidInput
for a negative margin or a label count that does not match the point
count), counts positive and negative bottleneck pairs per MST edge with
a union-find pass, and computes the full-mode quadruplet loss and its
gradient; for a single point (no edges) loss 0 with an empty gradient is
returned by policy. -/
def um_loss (mst : List (ℕ × ℕ × ℚ)) (gt_seg : List ℤ) (alpha : ℚ) :
    Except UMErr UMLossResult :=
  if alpha < 0 then
    Except.error UMErr.invalidInput
  else if gt_seg.length ≠ mst.length + 1 then
    Except.error UMErr.invalidInput
  else
    Except.ok
      { loss := um_full_loss (um_L mst gt_seg) alpha
        gradient := um_full_gradient (um_L mst gt_seg) alpha
        ratio_pos := (um_counts mst gt_seg).map
          (fun c => um_ratio (um_num_pos mst gt_seg) c.1)
        ratio_neg := (um_counts mst gt_seg).map
          (fun c => um_ratio (um_num_neg mst gt_seg) c.2)
        num_pairs_pos := (um_num_pos mst gt_seg : ℚ)
        num_pairs_neg := (um_num_neg mst gt_seg : ℚ) }

/-- Narrowing a value to float32 (np.float32 and ndarray.astype in the
Python wrappers).  Values in this development are exact rationals, so
the narrowing is modelled as preserving the exact value; what matters to
the claims is that every output passes through this same function. -/
def float32cast (x : ℚ) : ℚ := x

/-- get_emst from um_loss.py: converts the embedding to float64, runs
the euclidean MST kernel, then evaluates np.min and np.max of the edge
distance column for the log message (the logging itself is discarded,
but the two reductions still run and raise on an empty edge list). -/
def get_emst (sq : ℚ → ℚ) (embedding : EmbArr) : Except UMErr MstArr := do
  let emst ← euclidean_mst sq (astype DType.float64 embedding)
  let _ ← npMin (emst.edges.map (fun e => e.2.2))
  let _ ← npMax (emst.edges.map (fun e => e.2.2))
  pure emst

/-- get_um_loss from um_loss.py: calls the um_loss kernel on (mst,
gt_seg, alpha) and returns (loss, ratio_pos, ratio_neg, num_pairs_pos,
num_pairs_neg) narrowed to float32.  The dist argument is ignored; it
only communicates a data dependency to tensorflow. -/
def get_um_loss (mst : List (ℕ × ℕ × ℚ)) (dist : List ℚ) (gt_seg : List ℤ)
    (alpha : ℚ) : Except UMErr (ℚ × List ℚ × List ℚ × ℚ × ℚ) :=
  (um_loss mst gt_seg alpha).map (fun r =>
    (float32cast r.loss,
     r.ratio_pos.map float32cast,
     r.ratio_neg.map float32cast,
     float32cast r.num_pairs_pos,
     float32cast r.num_pairs_neg))

/-- get_um_loss_gradient from um_loss.py: calls the um_loss kernel on
(mst, gt_seg, alpha) and returns only the gradient field, narrowed to
float32.  The dist argument is ignored, as in get_um_loss. -/
def get_um_loss_gradient (mst : List (ℕ × ℕ × ℚ)) (dist : List ℚ)
    (gt_seg : List ℤ) (alpha : ℚ) : Except UMErr (List ℚ) :=
  (um_loss mst gt_seg alpha).map (fun r => r.gradient.map float32cast)

/-- get_um_loss_gradient_op from um_loss.py: the gradient registered for
the loss op.  Its op has inputs [mst, dist, gt_seg, alpha]; it receives
the incoming gradients of the five forward outputs, runs
get_um_loss_gradient on the op inputs, and returns per-input gradients
(None, gradient * dloss, None, None); the incoming gradients of the
ratio and pair-count outputs are ignored. -/
def get_um_loss_gradient_op (mst : List (ℕ × ℕ × ℚ)) (dist : List ℚ)
    (gt_seg : List ℤ) (alpha : ℚ) (dloss : ℚ) (dratio_pos : List ℚ)
    (dratio_neg : List ℚ) (dnum_pairs_pos : ℚ) (dnum_pairs_neg : ℚ) :
    Except UMErr
      (Option (List ℚ) × Option (List ℚ) × Option (List ℚ) × Option (List ℚ)) :=
  (get_um_loss_gradient mst dist gt_seg alpha).map (fun g =>
    (none, some (g.map (fun x => x * dloss)), none, none))

/-- tf.boolean_mask on a flat list: keeps the entries whose mask value
is true. -/
def boolean_mask {α : Type} (xs : List α) (mask : List Bool) : List α :=
  match xs, mask with
  | [], _ => []
  | _ :: _, [] => []
  | x :: xs, b :: ms =>
    if b then x :: boolean_mask xs ms else boolean_mask xs ms

/-- Step 2 of ultrametric_loss_op after flattening: when a mask is
given, the same flattened mask is applied to the embedding rows and to
the labels. -/
def masked_inputs (emb : List (List ℚ)) (seg : List ℤ)
    (mask : Option (List Bool)) : List (List ℚ) × List ℤ :=
  match mask with
  | none => (emb, seg)
  | some m => (boolean_mask emb m, boolean_mask seg m)

/-- Step 4 of ultrametric_loss_op: the squared length of each MST edge,
recomputed from the embedding by gathering both endpoint vectors
(tf.reduce_sum of the squared differences). -/
def edge_dists_squared (emb : EmbArr) (mst : MstArr) : List ℚ :=
  mst.edges.map (fun e => sqDist (point emb.rows e.1) (point emb.rows e.2.1))

/-- Steps 3 to 5 of ultrametric_loss_op from um_loss.py, on the already
flattened (and masked) points: compute the EMST, recompute the edge
lengths from the embedding (dist is tf.sqrt of the summed squared
differences, written here as sq applied to the squared length), then
either the pretrain pair loss in one of its two balancing modes, or the
full quadruplet loss.  The full branch goes through py_func_gradient
(not in the repository snapshot), whose forward value is the first
output of get_um_loss. -/
def ultrametric_loss_op (sq : ℚ → ℚ) (embedding : EmbArr) (gt_seg : List ℤ)
    (alpha : ℚ) (pretrain : Bool) (pretrain_balance : Bool) :
    Except UMErr ℚ := do
  let emst ← get_emst sq embedding
  let dist_squared := edge_dists_squared embedding emst
  let dist := dist_squared.map sq
  if pretrain then do
    let (_, ratio_pos, ratio_neg, num_pairs_pos, num_pairs_neg) ←
      get_um_loss emst.edges dist gt_seg alpha
    let loss_pos := List.zipWith (fun x y => x * y) dist_squared ratio_pos
    let loss_neg := List.zipWith (fun x y => x * y)
      (dist.map (fun d => max 0 (alpha - d) * max 0 (alpha - d))) ratio_neg
    if pretrain_balance then
      pure (loss_pos.sum + loss_neg.sum)
    else
      pure ((loss_pos.sum * num_pairs_pos + loss_neg.sum * num_pairs_neg) /
        (num_pairs_pos + num_pairs_neg))
  else do
    let r ← get_um_loss emst.edges dist gt_seg alpha
    pure r.1

/-- The spec's pretrain positive-pair term: the sum over edges of the
squared edge length weighted by ratio_pos. -/
def spec_pretrain_pos_sum (dist ratio_pos : List ℚ) : ℚ :=
  (List.zipWith (fun d r => d * d * r) dist ratio_pos).sum

/-- The spec's pretrain negative-pair term: the sum over edges of the
squared hinge max(0, alpha - d) weighted by ratio_neg. -/
def spec_pretrain_neg_sum (alpha : ℚ) (dist ratio_neg : List ℚ) : ℚ :=
  (List.zipWith (fun d r => max 0 (alpha - d) * max 0 (alpha - d) * r)
    dist ratio_neg).sum

/-- The spec's unbalanced pretrain loss: the positive and negative sums
weighted by their pair counts, divided by the total number of pairs. -/
def spec_pretrain_unbalanced (alpha : ℚ) (dist ratio_pos ratio_neg : List ℚ)
    (num_pairs_pos num_pairs_neg : ℚ) : ℚ :=
  (spec_pretrain_pos_sum dist ratio_pos * num_pairs_pos +
    spec_pretrain_neg_sum alpha dist ratio_neg * num_pairs_neg) /
    (num_pairs_pos + num_pairs_neg)

/-- The spec's balanced pretrain loss: the plain sum of the positive and
negative sums, with no further division. -/
def spec_pretrain_balanced (alpha : ℚ) (dist ratio_pos ratio_neg : List ℚ) : ℚ :=
  spec_pretrain_pos_sum dist ratio_pos + spec_pretrain_neg_sum alpha dist ratio_neg

/-- Binding an ok value in Except applies the continuation. -/
theorem except_bind_ok {ε α β : Type} (a : α) (f : α → Except ε β) :
    Bind.bind (Except.ok a) f = f a := rfl

/-- Binding an error in Except short-circuits. -/
theorem except_bind_err {ε α β : Type} (e : ε) (f : α → Except ε β) :
    Bind.bind (Except.error e) f = Except.error e := rfl

/-- A successful euclidean_mst result always carries dtype float64. -/
theorem euclidean_mst_dtype (sq : ℚ → ℚ) (a : EmbArr) (m : MstArr)
    (h : euclidean_mst sq a = Except.ok m) : m.dtype = DType.float64 := by
  unfold euclidean_mst at h
  split at h
  · exact Except.noConfusion h
  · cases h
    rfl

/-- Pointwise products against a squared-via-sq list collapse to the
squared values themselves when sq is a genuine square root on the list. -/
theorem zipWith_sq_mul (sq : ℚ → ℚ) :
    ∀ (xs ys : List ℚ), (∀ x ∈ xs, sq x * sq x = x) →
      List.zipWith (fun d r => d * d * r) (xs.map sq) ys =
        List.zipWith (fun x y => x * y) xs ys := by
  intro xs
  induction xs with
  | nil => intro ys _; simp
  | cons x xs ih =>
    intro ys h
    cases ys with
    | nil => simp
    | cons y ys =>
      simp only [List.map_cons, List.zipWith_cons_cons]
      rw [h x (by simp), ih ys (fun z hz => h z (List.mem_cons_of_mem x hz))]

/-- Mapping before a pointwise product is the same as applying the map
inside the product. -/
theorem zipWith_mul_map_left (f : ℚ → ℚ) :
    ∀ (xs ys : List ℚ),
      List.zipWith (fun x y => x * y) (xs.map f) ys =
        List.zipWith (fun d r => f d * r) xs ys := by
  intro xs
  induction xs with
  | nil => intro ys; simp
  | cons x xs ih =>
    intro ys
    cases ys with
    | nil => simp
    | cons y ys => simp only [List.map_cons, List.zipWith_cons_cons, ih]

/-- The same boolean mask keeps the same number of entries from two
lists of equal length. -/
theorem boolean_mask_length {α β : Type} :
    ∀ (mask : List Bool) (xs : List α) (ys : List β),
      xs.length = ys.length →
      (boolean_mask xs mask).length = (boolean_mask ys mask).length := by
  intro mask
  induction mask with
  | nil =>
    intro xs ys _
    cases xs <;> cases ys <;> simp [boolean_mask]
  | cons b ms ih =>
    intro xs ys h
    cases xs with
    | nil =>
      cases ys with
      | nil => simp [boolean_mask]
      | cons y ys => simp at h
    | cons x xs =>
      cases ys with
      | nil => simp at h
      | cons y ys =>
        simp only [List.length_cons, Nat.add_right_cancel_iff] at h
        cases b <;> simp [boolean_mask, ih xs ys h]

/-- C1: in pretrain mode with pretrain_balance false (the default), for
every valid input with at least two points (the MST op succeeds and the
loss kernel accepts the input) the returned loss is the spec's
unbalanced formula (sum over edges of the squared edge length times
ratio_pos, scaled by num_pairs_pos, plus sum over edges of the squared
hinge max(0, alpha - d) times ratio_neg, scaled by num_pairs_neg, all
divided by num_pairs_pos + num_pairs_neg), where the per-edge length d
is the Euclidean length of the MST edge: sq applied to the squared
length, with sq a genuine square root on the edge values. -/
theorem c1_pretrain_unbalanced_loss (sq : ℚ → ℚ) (emb : EmbArr)
    (gt_seg : List ℤ) (alpha : ℚ) (emst : MstArr) (l : ℚ) (rp rn : List ℚ)
    (np nn : ℚ)
    (hm : get_emst sq emb = Except.ok emst)
    (hu : get_um_loss emst.edges ((edge_dists_squared emb emst).map sq)
      gt_seg alpha = Except.ok (l, rp, rn, np, nn))
    (hs : ∀ x ∈ edge_dists_squared emb emst, sq x * sq x = x) :
    ultrametric_loss_op sq emb gt_seg alpha true false =
      Except.ok (spec_pretrain_unbalanced alpha
        ((edge_dists_squared emb emst).map sq) rp rn np nn) := by
  simp only [ultrametric_loss_op, hm, except_bind_ok]
  rw [hu]
  simp only [except_bind_ok, if_true, Bool.false_eq_true, if_false, pure,
    Except.pure]
  rw [Except.ok.injEq]
  unfold spec_pretrain_unbalanced spec_pretrain_pos_sum spec_pretrain_neg_sum
  rw [zipWith_sq_mul sq (edge_dists_squared emb emst) rp hs]
  rw [zipWith_mul_map_left (fun d => max 0 (alpha - d) * max 0 (alpha - d))]

/-- Closed instance of c1_pretrain_unbalanced_loss on two 1-dimensional
points at squared distance 4, with every hypothesis discharged. -/
theorem c1_pretrain_unbalanced_loss_witness :
    ultrametric_loss_op (fun _ => 2) (EmbArr.mk DType.float32 [[0], [2]])
      [0, 1] 1 true false =
      Except.ok (spec_pretrain_unbalanced 1
        ((edge_dists_squared (EmbArr.mk DType.float32 [[0], [2]])
          (MstArr.mk DType.float64 [(0, 1, 2)])).map (fun _ => 2))
        [0] [1] 0 1) := by
  refine c1_pretrain_unbalanced_loss (fun _ => 2)
    (EmbArr.mk DType.float32 [[0], [2]]) [0, 1] 1
    (MstArr.mk DType.float64 [(0, 1, 2)]) 0 [0] [1] 0 1 ?_ ?_ ?_
  · have hsq : sqDist [(0 : ℚ)] [2] = 4 := by norm_num [sqDist]
    simp [get_emst, euclidean_mst, astype, primAux, pickMin, point, hsq,
      sortEdges, insertSorted, npMin, npMax, bind, Except.bind, pure,
      Except.pure, List.range_succ]
  · have hc : um_counts [(0, 1, 2)] [0, 1] = [(0, 1)] := by decide
    have hp : um_num_pos [(0, 1, 2)] [0, 1] = 0 := by decide
    have hn : um_num_neg [(0, 1, 2)] [0, 1] = 1 := by decide
    norm_num [get_um_loss, um_loss, hc, hp, hn, float32cast, um_L,
      um_full_loss, um_full_gradient, um_ratio, Except.map]
  · have hd : edge_dists_squared (EmbArr.mk DType.float32 [[0], [2]])
        (MstArr.mk DType.float64 [(0, 1, 2)]) = [4] := by
      norm_num [edge_dists_squared, sqDist, point]
    rw [hd]
    norm_num

/-- C2: in pretrain mode with pretrain_balance true, for every valid
input with at least two points (the MST op succeeds and the loss kernel
accepts the input) the returned loss is the spec's balanced formula: the
plain sum of the squared edge lengths times ratio_pos plus the plain sum
of the squared hinges max(0, alpha - d) times ratio_neg, with no further
division by pair counts. -/
theorem c2_pretrain_balanced_loss (sq : ℚ → ℚ) (emb : EmbArr)
    (gt_seg : List ℤ) (alpha : ℚ) (emst : MstArr) (l : ℚ) (rp rn : List ℚ)
    (np nn : ℚ)
    (hm : get_emst sq emb = Except.ok emst)
    (hu : get_um_loss emst.edges ((edge_dists_squared emb emst).map sq)
      gt_seg alpha = Except.ok (l, rp, rn, np, nn))
    (hs : ∀ x ∈ edge_dists_squared emb emst, sq x * sq x = x) :
    ultrametric_loss_op sq emb gt_seg alpha true true =
      Except.ok (spec_pretrain_balanced alpha
        ((edge_dists_squared emb emst).map sq) rp rn) := by
  simp only [ultrametric_loss_op, hm, except_bind_ok]
  rw [hu]
  simp only [except_bind_ok, if_true, pure, Except.pure]
  rw [Except.ok.injEq]
  unfold spec_pretrain_balanced spec_pretrain_pos_sum spec_pretrain_neg_sum
  rw [zipWith_sq_mul sq (edge_dists_squared emb emst) rp hs]
  rw [zipWith_mul_map_left (fun d => max 0 (alpha - d) * max 0 (alpha - d))]

/-- Closed instance of c2_pretrain_balanced_loss on two 1-dimensional
points at squared distance 9, with every hypothesis discharged. -/
theorem c2_pretrain_balanced_loss_witness :
    ultrametric_loss_op (fun _ => 3) (EmbArr.mk DType.float32 [[0], [3]])
      [0, 1] 1 true true =
      Except.ok (spec_pretrain_balanced 1
        ((edge_dists_squared (EmbArr.mk DType.float32 [[0], [3]])
          (MstArr.mk DType.float64 [(0, 1, 3)])).map (fun _ => 3))
        [0] [1]) := by
  refine c2_pretrain_balanced_loss (fun _ => 3)
    (EmbArr.mk DType.float32 [[0], [3]]) [0, 1] 1
    (MstArr.mk DType.float64 [(0, 1, 3)]) 0 [0] [1] 0 1 ?_ ?_ ?_
  · have hsq : sqDist [(0 : ℚ)] [3] = 9 := by norm_num [sqDist]
    simp [get_emst, euclidean_mst, astype, primAux, pickMin, point, hsq,
      sortEdges, insertSorted, npMin, npMax, bind, Except.bind, pure,
      Except.pure, List.range_succ]
  · have hc : um_counts [(0, 1, 3)] [0, 1] = [(0, 1)] := by decide
    have hp : um_num_pos [(0, 1, 3)] [0, 1] = 0 := by decide
    have hn : um_num_neg [(0, 1, 3)] [0, 1] = 1 := by decide
    norm_num [get_um_loss, um_loss, hc, hp, hn, float32cast, um_L,
      um_full_loss, um_full_gradient, um_ratio, Except.map]
  · have hd : edge_dists_squared (EmbArr.mk DType.float32 [[0], [3]])
        (MstArr.mk DType.float64 [(0, 1, 3)]) = [9] := by
      norm_num [edge_dists_squared, sqDist, point]
    rw [hd]
    norm_num

/-- C3: the claim says an input with a single point (zero MST edges)
does not hard-fail and yields loss 0 with an empty gradient.  The code
violates this: get_emst evaluates np.min over the empty edge-distance
column for its log line, which raises ValueError before any loss is
computed.  The second conjunct shows the zero-loss, empty-gradient
policy the claim describes does hold in the loss kernel itself, so the
crash in the get_emst wrapper is a slip against the documented intent. -/
theorem c3_single_point_hard_fail :
    get_emst id (EmbArr.mk DType.float32 [[0, 0]]) = Except.error UMErr.valueError ∧
    um_loss [] [7] 1 = Except.ok (UMLossResult.mk 0 [] [] [] 0 0) := by
  constructor
  · decide
  · decide

/-- C4: the registered backward pass returns a gradient only for the
edge-distance input, equal to the core um_loss gradient (narrowed to
float32) scaled by the incoming loss gradient, and None for the MST,
label and alpha inputs; the incoming gradients of the ratio and
pair-count outputs do not enter the result. -/
theorem c4_gradient_op_slots (mst : List (ℕ × ℕ × ℚ)) (dist : List ℚ)
    (gt_seg : List ℤ) (alpha : ℚ) (dloss : ℚ) (drp drn : List ℚ)
    (dnp dnn : ℚ) :
    get_um_loss_gradient_op mst dist gt_seg alpha dloss drp drn dnp dnn =
      (um_loss mst gt_seg alpha).map (fun r =>
        (none,
         some ((r.gradient.map float32cast).map (fun x => x * dloss)),
         none, none)) := by
  unfold get_um_loss_gradient_op get_um_loss_gradient
  cases um_loss mst gt_seg alpha <;> rfl

/-- C5: the separate gradient entry point and the combined loss call are
projections of the same underlying um_loss computation on (mst, gt_seg,
alpha): get_um_loss_gradient returns exactly its gradient field and
get_um_loss exactly its remaining fields, both narrowed through the same
float32 cast, independently of the dist arguments. -/
theorem c5_gradient_entry_points_agree (mst : List (ℕ × ℕ × ℚ))
    (dist dist2 : List ℚ) (gt_seg : List ℤ) (alpha : ℚ) :
    get_um_loss_gradient mst dist gt_seg alpha =
      (um_loss mst gt_seg alpha).map (fun r => r.gradient.map float32cast) ∧
    get_um_loss mst dist2 gt_seg alpha =
      (um_loss mst gt_seg alpha).map (fun r =>
        (float32cast r.loss, r.ratio_pos.map float32cast,
         r.ratio_neg.map float32cast, float32cast r.num_pairs_pos,
         float32cast r.num_pairs_neg)) :=
  ⟨rfl, rfl⟩

/-- C6: the MST builder operates in double precision regardless of the
precision of the input embedding: every successful get_emst result is
exactly the MST of the embedding converted to float64 before the kernel
runs, its distance column carries dtype float64, and converting the
input to float64 beforehand does not change the result at all. -/
theorem c6_mst_double_precision (sq : ℚ → ℚ) (emb : EmbArr) (out : MstArr)
    (h : get_emst sq emb = Except.ok out) :
    out.dtype = DType.float64 ∧
    euclidean_mst sq (astype DType.float64 emb) = Except.ok out ∧
    get_emst sq emb = get_emst sq (astype DType.float64 emb) := by
  unfold get_emst at h
  cases he : euclidean_mst sq (astype DType.float64 emb) with
  | error e =>
    rw [he, except_bind_err] at h
    exact Except.noConfusion h
  | ok m =>
    rw [he, except_bind_ok] at h
    cases hn : npMin (m.edges.map (fun e => e.2.2)) with
    | error e =>
      rw [hn, except_bind_err] at h
      exact Except.noConfusion h
    | ok d =>
      rw [hn, except_bind_ok] at h
      cases hx : npMax (m.edges.map (fun e => e.2.2)) with
      | error e =>
        rw [hx, except_bind_err] at h
        exact Except.noConfusion h
      | ok d2 =>
        rw [hx, except_bind_ok] at h
        simp only [pure, Except.pure] at h
        injection h with h2
        subst h2
        exact ⟨euclidean_mst_dtype sq (astype DType.float64 emb) _ he, rfl, rfl⟩

/-- Closed instance of c6_mst_double_precision on a concrete two-point
float32 embedding, with the success hypothesis discharged. -/
theorem c6_mst_double_precision_witness :
    (MstArr.mk DType.float64 [(0, 1, 2)]).dtype = DType.float64 ∧
    euclidean_mst (fun _ => 2)
      (astype DType.float64 (EmbArr.mk DType.float32 [[0], [2]])) =
      Except.ok (MstArr.mk DType.float64 [(0, 1, 2)]) ∧
    get_emst (fun _ => 2) (EmbArr.mk DType.float32 [[0], [2]]) =
      get_emst (fun _ => 2)
        (astype DType.float64 (EmbArr.mk DType.float32 [[0], [2]])) := by
  refine c6_mst_double_precision (fun _ => 2)
    (EmbArr.mk DType.float32 [[0], [2]]) (MstArr.mk DType.float64 [(0, 1, 2)]) ?_
  have hsq : sqDist [(0 : ℚ)] [2] = 4 := by norm_num [sqDist]
  simp [get_emst, euclidean_mst, astype, primAux, pickMin, point, hsq,
    sortEdges, insertSorted, npMin, npMax, bind, Except.bind, pure,
    Except.pure, List.range_succ]

/-- C7: invalid inputs fail with InvalidInput, detected at the start of
the component that owns them and before any loss is computed: an empty
point set is rejected by the MST kernel whatever the other arguments; a
negative margin alpha is rejected by the loss kernel in both the
pretrain and the full path; a label count that does not match the point
count is likewise rejected by the loss kernel.  (Non-finite inputs have
no counterpart in this exact-rational model.) -/
theorem c7_invalid_inputs_error :
    (∀ (sq : ℚ → ℚ) (dt : DType) (gt_seg : List ℤ) (alpha : ℚ) (p b : Bool),
      ultrametric_loss_op sq (EmbArr.mk dt []) gt_seg alpha p b =
        Except.error UMErr.invalidInput) ∧
    (∀ (sq : ℚ → ℚ) (emb : EmbArr) (gt_seg : List ℤ) (alpha : ℚ) (p b : Bool)
      (emst : MstArr), get_emst sq emb = Except.ok emst → alpha < 0 →
      ultrametric_loss_op sq emb gt_seg alpha p b =
        Except.error UMErr.invalidInput) ∧
    (∀ (sq : ℚ → ℚ) (emb : EmbArr) (gt_seg : List ℤ) (alpha : ℚ) (p b : Bool)
      (emst : MstArr), get_emst sq emb = Except.ok emst → 0 ≤ alpha →
      gt_seg.length ≠ emst.edges.length + 1 →
      ultrametric_loss_op sq emb gt_seg alpha p b =
        Except.error UMErr.invalidInput) := by
  refine ⟨?_, ?_, ?_⟩
  · intro sq dt gt_seg alpha p b
    rfl
  · intro sq emb gt_seg alpha p b emst hm ha
    simp only [ultrametric_loss_op, hm, except_bind_ok]
    unfold get_um_loss um_loss
    rw [if_pos ha]
    cases p <;>
      simp [except_bind_err, Except.map, bind, Except.bind]
  · intro sq emb gt_seg alpha p b emst hm ha hl
    simp only [ultrametric_loss_op, hm, except_bind_ok]
    unfold get_um_loss um_loss
    rw [if_neg (not_lt.mpr ha), if_pos hl]
    cases p <;>
      simp [except_bind_err, Except.map, bind, Except.bind]

/-- Closed instance of c7_invalid_inputs_error: an empty point set, a
negative alpha and a mismatched label count each produce InvalidInput at
a concrete input, with every hypothesis discharged. -/
theorem c7_invalid_inputs_error_witness :
    ultrametric_loss_op id (EmbArr.mk DType.float32 []) [] 1 true false =
      Except.error UMErr.invalidInput ∧
    ultrametric_loss_op (fun _ => 2) (EmbArr.mk DType.float32 [[0], [2]])
      [0, 1] (-1) false false = Except.error UMErr.invalidInput ∧
    ultrametric_loss_op (fun _ => 2) (EmbArr.mk DType.float32 [[0], [2]])
      [0, 1, 5] 1 true true = Except.error UMErr.invalidInput := by
  have hm : get_emst (fun _ => (2 : ℚ)) (EmbArr.mk DType.float32 [[0], [2]]) =
      Except.ok (MstArr.mk DType.float64 [(0, 1, 2)]) := by
    have hsq : sqDist [(0 : ℚ)] [2] = 4 := by norm_num [sqDist]
    simp [get_emst, euclidean_mst, astype, primAux, pickMin, point, hsq,
      sortEdges, insertSorted, npMin, npMax, bind, Except.bind, pure,
      Except.pure, List.range_succ]
  refine ⟨c7_invalid_inputs_error.1 id DType.float32 [] 1 true false,
    c7_invalid_inputs_error.2.1 (fun _ => 2) (EmbArr.mk DType.float32 [[0], [2]])
      [0, 1] (-1) false false (MstArr.mk DType.float64 [(0, 1, 2)]) hm
      (by norm_num),
    c7_invalid_inputs_error.2.2 (fun _ => 2) (EmbArr.mk DType.float32 [[0], [2]])
      [0, 1, 5] 1 true true (MstArr.mk DType.float64 [(0, 1, 2)]) hm
      (by norm_num) (by decide)⟩

/-- C8: the computation is deterministic and stateless; any two
invocations with identical inputs return identical outputs for the loss
op, the MST builder, the loss call and the gradient call.  The model is
a pure function of its arguments, mirroring the source, which keeps no
module state and registers its py_func ops with stateful set to false. -/
theorem c8_deterministic (sq : ℚ → ℚ) (e1 e2 : EmbArr) (g1 g2 : List ℤ)
    (a1 a2 : ℚ) (p1 p2 b1 b2 : Bool) (m1 m2 : List (ℕ × ℕ × ℚ))
    (d1 d2 : List ℚ)
    (h : e1 = e2 ∧ g1 = g2 ∧ a1 = a2 ∧ p1 = p2 ∧ b1 = b2 ∧ m1 = m2 ∧ d1 = d2) :
    ultrametric_loss_op sq e1 g1 a1 p1 b1 = ultrametric_loss_op sq e2 g2 a2 p2 b2 ∧
    get_emst sq e1 = get_emst sq e2 ∧
    get_um_loss m1 d1 g1 a1 = get_um_loss m2 d2 g2 a2 ∧
    get_um_loss_gradient m1 d1 g1 a1 = get_um_loss_gradient m2 d2 g2 a2 := by
  obtain ⟨h1, h2, h3, h4, h5, h6, h7⟩ := h
  subst h1
  subst h2
  subst h3
  subst h4
  subst h5
  subst h6
  subst h7
  exact ⟨rfl, rfl, rfl, rfl⟩

/-- Closed instance of c8_deterministic at a concrete input, with every
equality hypothesis discharged. -/
theorem c8_deterministic_witness :
    ultrametric_loss_op id (EmbArr.mk DType.float32 [[0]]) [1] 0 true false =
      ultrametric_loss_op id (EmbArr.mk DType.float32 [[0]]) [1] 0 true false ∧
    get_emst id (EmbArr.mk DType.float32 [[0]]) =
      get_emst id (EmbArr.mk DType.float32 [[0]]) ∧
    get_um_loss [] [] [1] 0 = get_um_loss [] [] [1] 0 ∧
    get_um_loss_gradient [] [] [1] 0 = get_um_loss_gradient [] [] [1] 0 :=
  c8_deterministic id (EmbArr.mk DType.float32 [[0]])
    (EmbArr.mk DType.float32 [[0]]) [1] [1] 0 0 true true false false [] [] [] []
    ⟨rfl, rfl, rfl, rfl, rfl, rfl, rfl⟩

/-- C9: the dist argument of get_um_loss and of get_um_loss_gradient has
no influence on their results; any two values of it give equal outputs,
because the distances actually used are those stored in the mst
argument. -/
theorem c9_dist_ignored (mst : List (ℕ × ℕ × ℚ)) (d1 d2 : List ℚ)
    (gt_seg : List ℤ) (alpha : ℚ) :
    get_um_loss mst d1 gt_seg alpha = get_um_loss mst d2 gt_seg alpha ∧
    get_um_loss_gradient mst d1 gt_seg alpha =
      get_um_loss_gradient mst d2 gt_seg alpha :=
  ⟨rfl, rfl⟩

/-- C10: masking applies the same flattened boolean mask to the
embedding rows and to the labels, so the masked point count always
equals the masked label count when the flattened inputs have equal
length (and trivially when no mask is given). -/
theorem c10_mask_preserves_count (emb : List (List ℚ)) (seg : List ℤ)
    (mask : Option (List Bool)) (h : emb.length = seg.length) :
    (masked_inputs emb seg mask).1.length =
      (masked_inputs emb seg mask).2.length := by
  cases mask with
  | none => exact h
  | some m => exact boolean_mask_length m emb seg h

/-- Closed instance of c10_mask_preserves_count at a concrete masked
input. -/
theorem c10_mask_preserves_count_witness :
    (masked_inputs [[0], [1]] [3, 4] (some [true, false])).1.length =
      (masked_inputs [[0], [1]] [3, 4] (some [true, false])).2.length :=
  c10_mask_preserves_count [[0], [1]] [3, 4] (some [true, false]) (by decide)
